import Mathlib

/-!
# Egress process manager: admission and lifecycle supervision

A shallow embedding of `pkg/service/manager.go` (type `ProcessManager`) and a
verification of its behaviour.

Modelling conventions.

* The Go map `activeHandlers` is an association list with pairwise distinct
  keys (`AList`); the order of its entries stands for the order in which a
  `range` loop happens to visit the map and is never relied on.
* A channel is a reference (a number); whether it has been closed is kept in the
  runtime part of the state (`World.closedChans`). `make(chan struct{})`
  allocates the next unused reference.
* Everything the manager does to its collaborators (metrics monitor, logger,
  the signalled OS processes) is appended to `World.trace`.
* Calls whose outcome is decided outside the manager (GUID generation,
  marshalling, process spawn, process exit, signal delivery, CPU gauge) take
  that outcome from an explicit environment argument.
* Each section guarded by `s.mu` is one atomic function on the state; the lock
  itself carries no data. Tracing spans are not modelled.
-/

namespace Egress

/-! ## Data model -/

/-- Modelled from the spec: the `Request` oneof of `livekit.StartEgressRequest`,
declared in the protocol package. The source names the two alternatives
`RoomComposite` and `Web`; every other alternative, and the unset (nil) oneof,
falls in the `default` arm of the type switch in `isWeb`. Payloads are kept as
uninterpreted strings. -/
inductive EgressRequest where
  | RoomComposite (payload : String)
  | Web (payload : String)
  | TrackComposite (payload : String)
  | Track (payload : String)
  | unset
  deriving DecidableEq, Repr

/-- Modelled from the spec: the part of `livekit.StartEgressRequest` the manager
reads, namely the job identifier `EgressId` and the `Request` oneof. -/
structure StartEgressRequest where
  EgressId : String
  Request : EgressRequest
  deriving DecidableEq, Repr

/-- A started `exec.Cmd`: its argument vector and the OS process it owns. -/
structure Cmd where
  args : List String
  pid : Nat
  deriving DecidableEq, Repr

/-- The Go struct `process` (a Handler Record). -/
structure process where
  handlerID : String
  req : StartEgressRequest
  cmd : Cmd
  closed : Nat
  deriving DecidableEq, Repr

/-- Modelled from the spec: `config.PipelineConfig`, the per-job configuration
built by `launchHandler` from the base configuration, the handler identifier
and a private temporary directory. -/
structure PipelineConfig where
  BaseConfig : String
  HandlerID : String
  TmpDir : String
  deriving DecidableEq, Repr

/-- The Go map `map[string]*process`. -/
abbrev Handlers := AList (fun _ : String => process)

/-- The Go struct `ProcessManager`: base configuration, the flag `handlingWeb`
and the registry `activeHandlers`. The monitor is a collaborator and appears
only through the trace; the mutex carries no data. -/
structure ProcessManager where
  conf : String
  handlingWeb : Bool
  activeHandlers : Handlers
  deriving DecidableEq

/-- Effects of the manager on its collaborators. -/
inductive Event where
  | EgressStarted (req : StartEgressRequest)
  | EgressEnded (req : StartEgressRequest)
  | Signal (cmd : Cmd)
  | Errorw (msg : String)
  deriving DecidableEq, Repr

/-- The manager together with the runtime state it shares with its goroutines. -/
structure World where
  s : ProcessManager
  closedChans : List Nat
  nextChan : Nat
  trace : List Event
  deriving DecidableEq

/-- Outcomes of the external calls made by `launchHandler`. -/
structure LaunchEnv where
  newGuid : String
  tempDir : String
  yamlMarshal : PipelineConfig → Except String String
  protojsonMarshal : StartEgressRequest → Except String String
  start : List String → Except String Nat

/-! ## Operations -/

/-- `NewProcessManager`: empty registry, flag clear. -/
def NewProcessManager (conf : String) : ProcessManager :=
  { conf := conf, handlingWeb := false, activeHandlers := ∅ }

/-- A fresh runtime around a new manager. -/
def World.init (conf : String) : World :=
  { s := NewProcessManager conf, closedChans := [], nextChan := 0, trace := [] }

/-- `isWeb`: the type switch on the request oneof. -/
def isWeb (req : StartEgressRequest) : Bool :=
  match req.Request with
  | .RoomComposite _ => true
  | .Web _ => true
  | _ => false

/-- `isIdle`: `len(s.activeHandlers) == 0`, returned with the state it leaves. -/
def isIdle (w : World) : Bool × World :=
  (w.s.activeHandlers.entries.length == 0, w)

/-- `canAccept`: `!s.handlingWeb && (!isWeb(req) || s.isIdle())`, returned with
the state it leaves; the only call it makes, `isIdle`, hands the state back as
it got it, whether or not short-circuit evaluation reaches it. -/
def canAccept (w : World) (req : StartEgressRequest) : Bool × World :=
  (!w.s.handlingWeb && (!isWeb req || (isIdle w).1), (isIdle w).2)

/-- `path.Join(os.TempDir(), handlerID)`. -/
def pathJoin (dir name : String) : String :=
  dir ++ "/" ++ name

/-- The per-job configuration `p` built at the top of `launchHandler`. -/
def pipelineConfig (w : World) (env : LaunchEnv) : PipelineConfig :=
  { BaseConfig := w.s.conf, HandlerID := env.newGuid,
    TmpDir := pathJoin env.tempDir env.newGuid }

/-- The argument vector handed to `exec.Command`. -/
def handlerArgs (confString reqString : String) : List String :=
  ["egress", "run-handler", "--config", confString, "--request", reqString]

/-- `launchHandler`; the returned `error` is `none` for nil. The three early
returns log and hand back the error; the success path notifies the monitor,
allocates the record with a fresh channel and stores it under `req.EgressId`.
The goroutine started at the end is not a state change of the manager. -/
def launchHandler (w : World) (env : LaunchEnv) (req : StartEgressRequest) :
    Option String × World :=
  let handlerID := env.newGuid
  match env.yamlMarshal (pipelineConfig w env) with
  | .error err =>
    (some err, { w with trace := w.trace ++ [Event.Errorw "could not marshal config"] })
  | .ok confString =>
    match env.protojsonMarshal req with
    | .error err =>
      (some err, { w with trace := w.trace ++ [Event.Errorw "could not marshal request"] })
    | .ok reqString =>
      let args := handlerArgs confString reqString
      match env.start args with
      | .error err =>
        (some err, { w with trace := w.trace ++ [Event.Errorw "could not launch process"] })
      | .ok pid =>
        let h : process :=
          { handlerID := handlerID, req := req, cmd := { args := args, pid := pid },
            closed := w.nextChan }
        (none,
          { s := { w.s with activeHandlers := w.s.activeHandlers.insert req.EgressId h },
            closedChans := w.closedChans,
            nextChan := w.nextChan + 1,
            trace := w.trace ++ [Event.EgressStarted req] })

/-- The record `launchHandler` builds on its success path. -/
def launchedRecord (w : World) (env : LaunchEnv) (req : StartEgressRequest) : Option process :=
  match (launchHandler w env req).1 with
  | some _ => none
  | none => (launchHandler w env req).2.s.activeHandlers.lookup req.EgressId

/-- First part of `awaitCleanup`, before the lock: `cmd.Wait()` has returned
with `exit` (an error is logged), the completion channel is closed and the
monitor is told the job ended. Closing a channel that is already closed
panics, which is the `none` result. -/
def awaitCleanupSignal (w : World) (h : process) (exit : Option String) : Option World :=
  let t := match exit with
    | some _ => w.trace ++ [Event.Errorw "process failed"]
    | none => w.trace
  if h.closed ∈ w.closedChans then none
  else some { w with closedChans := h.closed :: w.closedChans, trace := t ++ [Event.EgressEnded h.req] }

/-- Second part of `awaitCleanup`, the section under `s.mu.Lock()`: clear the
flag for a web request, delete the entry under `h.req.EgressId`. -/
def awaitCleanupLocked (w : World) (h : process) : World :=
  let flag := if isWeb h.req then false else w.s.handlingWeb
  { w with s := { w.s with handlingWeb := flag,
                           activeHandlers := w.s.activeHandlers.erase h.req.EgressId } }

/-- `awaitCleanup`, run once the worker has exited with `exit`. -/
def awaitCleanup (w : World) (h : process) (exit : Option String) : Option World :=
  (awaitCleanupSignal w h exit).map (fun w1 => awaitCleanupLocked w1 h)

/-- Reading of a `float64` gauge, kept as an uninterpreted value. -/
abbrev CPULoad := Nat

/-- The values stored in the `map[string]interface{}` built by `status`. -/
inductive StatusValue where
  | load (x : CPULoad)
  | request (r : EgressRequest)
  deriving DecidableEq, Repr

/-- The result type of `status`. -/
abbrev StatusMap := AList (fun _ : String => StatusValue)

/-- `status`: start from the map holding the gauge `cpuLoad` (the value of
`s.monitor.GetCPULoad()`) under "CpuLoad", then assign
`info[h.req.EgressId] = h.req.Request` for every registered record. -/
def status (w : World) (cpuLoad : CPULoad) : StatusMap × World :=
  (w.s.activeHandlers.entries.foldl
      (fun info e => info.insert e.2.req.EgressId (StatusValue.request e.2.req.Request))
      (AList.singleton "CpuLoad" (StatusValue.load cpuLoad)),
    w)

/-- `listEgress`: the keys of the registry. -/
def listEgress (w : World) : List String × World :=
  (w.s.activeHandlers.keys, w)

/-- Body of the `range` loop of `shutdown` for one record: the `select` takes
the first arm when the channel is closed; otherwise SIGINT is sent to the
worker and a delivery error, as told by `signal`, is logged. -/
def shutdownVisit (signal : Cmd → Option String) (w : World) (h : process) : World :=
  if h.closed ∈ w.closedChans then w
  else
    match signal h.cmd with
    | none => { w with trace := w.trace ++ [Event.Signal h.cmd] }
    | some _ =>
      { w with trace := w.trace ++ [Event.Signal h.cmd, Event.Errorw "failed to kill process"] }

/-- `shutdown`: visit every registered record. -/
def shutdown (w : World) (signal : Cmd → Option String) : World :=
  w.s.activeHandlers.entries.foldl (fun acc e => shutdownVisit signal acc e.2) w

/-- The SIGINT deliveries recorded in a trace, in order. -/
def signalsOf (t : List Event) : List Cmd :=
  t.filterMap (fun e => match e with
    | .Signal c => some c
    | _ => none)

/-! ## Derived notions used in the statements -/

/-- Number of registered records whose request is of the compositing class. -/
def webCount (w : World) : Nat :=
  (w.s.activeHandlers.entries.filter (fun e => isWeb e.2.req)).length

/-- Every record is stored under the job identifier of its own request, as
`launchHandler` stores it. -/
def World.Keyed (w : World) : Prop :=
  ∀ e ∈ w.s.activeHandlers.entries, e.2.req.EgressId = e.1

instance (w : World) : Decidable w.Keyed := by
  unfold World.Keyed; infer_instance

/-- Channel references in use lie below the allocation counter. -/
def World.Fresh (w : World) : Prop :=
  (∀ c ∈ w.closedChans, c < w.nextChan) ∧
    ∀ e ∈ w.s.activeHandlers.entries, e.2.closed < w.nextChan

instance (w : World) : Decidable w.Fresh := by
  unfold World.Fresh; infer_instance

/-- Outcome of a submission. -/
inductive SubmitResult where
  | accepted
  | rejected
  | launchFailed (err : String)
  deriving DecidableEq, Repr

/-- Modelled from the spec: the inbound entry point `submit`, which lives in the
service layer: an admission check by `canAccept`, followed by `launchHandler`
only when the check accepts, with rejection and launch failure told apart. -/
def submit (w : World) (env : LaunchEnv) (req : StartEgressRequest) : SubmitResult × World :=
  match canAccept w req with
  | (false, w1) => (SubmitResult.rejected, w1)
  | (true, w1) =>
    match launchHandler w1 env req with
    | (none, w2) => (SubmitResult.accepted, w2)
    | (some err, w2) => (SubmitResult.launchFailed err, w2)

/-- Steps of the sequential admission model: a submission, or the cleanup of a
record once its worker has exited with `exit`. -/
inductive Action where
  | submit (env : LaunchEnv) (req : StartEgressRequest)
  | cleanup (h : process) (exit : Option String)

/-- One step. A submission is enabled when its job identifier is not
registered; a cleanup is enabled for a record that is registered and whose
completion channel is still open. -/
def step (w : World) : Action → Option World
  | .submit env req =>
    if req.EgressId ∈ w.s.activeHandlers then none else some (submit w env req).2
  | .cleanup h exit =>
    if w.s.activeHandlers.lookup h.req.EgressId = some h then awaitCleanup w h exit else none

/-- Run a sequence of steps; `none` when some step is not enabled. -/
def run (w : World) : List Action → Option World
  | [] => some w
  | a :: rest => (step w a).bind (fun w1 => run w1 rest)

/-! ## Supervisors as concurrent tasks -/

/-- Where the goroutine running `awaitCleanup` for a record stands: blocked in
`cmd.Wait()`, past `close(h.closed)` but not yet holding the lock, or returned. -/
inductive Pc where
  | waiting
  | signalled
  | done
  deriving DecidableEq, Repr

/-- The manager with the supervisor goroutines started so far. -/
structure Sys where
  w : World
  tasks : List (process × Pc)
  deriving DecidableEq

/-- The system around a new manager: no goroutine yet. -/
def Sys.init (conf : String) : Sys :=
  { w := World.init conf, tasks := [] }

/-- Steps of the concurrent model. -/
inductive SysAction where
  | launch (env : LaunchEnv) (req : StartEgressRequest)
  | supSignal (i : Nat) (exit : Option String)
  | supRemove (i : Nat)
  | shutdown (signal : Cmd → Option String)

/-- True for the steps taken by a supervisor goroutine. -/
def SysAction.isSupervisor : SysAction → Bool
  | .supSignal _ _ => true
  | .supRemove _ => true
  | _ => false

/-- One step of the concurrent model. A launch that succeeds starts the
supervisor of the new record (`go s.awaitCleanup(h)`); supervisor `i` moves
through `awaitCleanup` in program order. -/
def sysStep (sys : Sys) : SysAction → Option Sys
  | .launch env req =>
    match launchedRecord sys.w env req with
    | none => some { sys with w := (launchHandler sys.w env req).2 }
    | some h =>
      some { w := (launchHandler sys.w env req).2, tasks := sys.tasks ++ [(h, Pc.waiting)] }
  | .supSignal i exit =>
    match sys.tasks[i]? with
    | some (h, Pc.waiting) =>
      (awaitCleanupSignal sys.w h exit).map
        (fun w1 => { w := w1, tasks := sys.tasks.set i (h, Pc.signalled) })
    | _ => none
  | .supRemove i =>
    match sys.tasks[i]? with
    | some (h, Pc.signalled) =>
      some { w := awaitCleanupLocked sys.w h, tasks := sys.tasks.set i (h, Pc.done) }
    | _ => none
  | .shutdown signal => some { sys with w := shutdown sys.w signal }

/-- Run a sequence of steps of the concurrent model. -/
def sysRun (sys : Sys) : List SysAction → Option Sys
  | [] => some sys
  | a :: rest => (sysStep sys a).bind (fun s1 => sysRun s1 rest)

/-- The completion channel of every record registered in `at0` is closed in `now`. -/
def allSignalsClosed (at0 now : Sys) : Prop :=
  ∀ e ∈ at0.w.s.activeHandlers.entries, e.2.closed ∈ now.w.closedChans

instance (at0 now : Sys) : Decidable (allSignalsClosed at0 now) := by
  unfold allSignalsClosed; infer_instance

/-- The supervisor of every record registered in `at0` has returned in `now`. -/
def allSupervisorsDone (at0 now : Sys) : Prop :=
  ∀ t ∈ now.tasks, at0.w.s.activeHandlers.lookup t.1.req.EgressId = some t.1 → t.2 = Pc.done

instance (at0 now : Sys) : Decidable (allSupervisorsDone at0 now) := by
  unfold allSupervisorsDone; infer_instance

/-- Every registered record is stored under its own job identifier and has a
supervisor that has not returned. -/
def Sys.Supervised (sys : Sys) : Prop :=
  ∀ e ∈ sys.w.s.activeHandlers.entries,
    e.2.req.EgressId = e.1 ∧ ∃ t ∈ sys.tasks, t.1 = e.2 ∧ t.2 ≠ Pc.done

/-! ## Concrete inputs -/

/-- An environment in which marshalling and spawning succeed. -/
def demoEnv : LaunchEnv :=
  { newGuid := "EGH_1", tempDir := "/tmp",
    yamlMarshal := fun _ => .ok "conf", protojsonMarshal := fun _ => .ok "req",
    start := fun _ => .ok 7 }

/-- An environment in which the worker process cannot be spawned. -/
def demoEnvNoSpawn : LaunchEnv :=
  { demoEnv with start := fun _ => .error "exec: not found" }

/-- Job A: a room-composite (compositing-class) request. -/
def reqA : StartEgressRequest := { EgressId := "A", Request := .RoomComposite "a" }

/-- Job B: a track (other-class) request. -/
def reqB : StartEgressRequest := { EgressId := "B", Request := .Track "b" }

/-- The record launched for job A from the initial state. -/
def recA : process :=
  { handlerID := "EGH_1", req := reqA,
    cmd := { args := ["egress", "run-handler", "--config", "conf", "--request", "req"], pid := 7 },
    closed := 0 }

/-- The state after job A has been submitted to a new manager. -/
def worldA : World := (submit (World.init "base") demoEnv reqA).2

/-- A second request carrying the job identifier of job A. -/
def reqA2 : StartEgressRequest := { EgressId := "A", Request := .Track "again" }

/-- Job C: an other-class request whose job identifier is the string "CpuLoad". -/
def reqC : StartEgressRequest := { EgressId := "CpuLoad", Request := .Track "c" }

/-- The state after job C has been submitted to a new manager. -/
def worldC : World := (submit (World.init "base") demoEnv reqC).2

/-- A run of the sequential model: A and B are submitted, A is cleaned up, A is
submitted again. -/
def demoActs : List Action :=
  [Action.submit demoEnv reqA, Action.submit demoEnv reqB, Action.cleanup recA none,
   Action.submit demoEnv reqA]

/-- The state of that run after its first two steps. -/
def worldAB : World := (run (World.init "base") (demoActs.take 2)).getD (World.init "base")

/-- The concurrent model after job A has been launched on a new manager. -/
def sysA : Sys :=
  (sysRun (Sys.init "base") [SysAction.launch demoEnv reqA]).getD (Sys.init "base")

/-- After `shutdown`, the supervisor of A has closed the completion channel and
has not yet taken the lock. -/
def sysASignalled : Sys :=
  (sysRun sysA [SysAction.shutdown (fun _ => none), SysAction.supSignal 0 none]).getD
    (Sys.init "base")

/-- After `shutdown`, the supervisor of A has run to its end. -/
def sysADone : Sys :=
  (sysRun sysA [SysAction.shutdown (fun _ => none), SysAction.supSignal 0 none,
    SysAction.supRemove 0]).getD (Sys.init "base")

/-! ## Basic facts -/

theorem handlers_eq_empty_iff (m : Handlers) : m = ∅ ↔ m.entries.length = 0 := by
  constructor
  · rintro rfl; rfl
  · intro h
    apply AList.ext
    simpa [List.length_eq_zero] using h

/-- `launchHandler` never writes the flag `handlingWeb`. -/
theorem launchHandler_handlingWeb (w : World) (env : LaunchEnv) (req : StartEgressRequest) :
    (launchHandler w env req).2.s.handlingWeb = w.s.handlingWeb := by
  unfold launchHandler
  simp only
  split
  · rfl
  · split
    · rfl
    · split <;> rfl

/-- Each of the three failing external calls makes `launchHandler` return that error. -/
theorem launchHandler_error_of_failure (w : World) (env : LaunchEnv) (req : StartEgressRequest)
    (err : String) :
    (env.yamlMarshal (pipelineConfig w env) = Except.error err →
        (launchHandler w env req).1 = some err) ∧
      (∀ c, env.yamlMarshal (pipelineConfig w env) = Except.ok c →
        env.protojsonMarshal req = Except.error err →
        (launchHandler w env req).1 = some err) ∧
      (∀ c r, env.yamlMarshal (pipelineConfig w env) = Except.ok c →
        env.protojsonMarshal req = Except.ok r →
        env.start (handlerArgs c r) = Except.error err →
        (launchHandler w env req).1 = some err) := by
  refine ⟨?_, ?_, ?_⟩
  · intro h; simp [launchHandler, h]
  · intro c h1 h2; simp [launchHandler, h1, h2]
  · intro c r h1 h2 h3; simp [launchHandler, h1, h2, h3]

/-! ## Admission -/

theorem canAccept_true_iff (w : World) (req : StartEgressRequest) :
    (canAccept w req).1 = true ↔
      w.s.handlingWeb = false ∧ (isWeb req = false ∨ w.s.activeHandlers = ∅) := by
  rw [handlers_eq_empty_iff]
  unfold canAccept isIdle
  cases hf : w.s.handlingWeb <;> cases hw : isWeb req <;> simp

theorem canAccept_state (w : World) (req : StartEgressRequest) : (canAccept w req).2 = w :=
  rfl

/-- C1: `canAccept` returns true exactly when the flag `handlingWeb` is not set
and either the request is not compositing-class or the registry is empty;
`isWeb` holds exactly for the `RoomComposite` and `Web` alternatives; and
`canAccept` leaves the whole state, registry and flag included, as it was. -/
theorem canAccept_iff (w : World) (req : StartEgressRequest) :
    ((canAccept w req).1 = true ↔
        w.s.handlingWeb = false ∧ (isWeb req = false ∨ w.s.activeHandlers = ∅)) ∧
      (isWeb req = true ↔
        (∃ p, req.Request = EgressRequest.RoomComposite p) ∨
          ∃ p, req.Request = EgressRequest.Web p) ∧
      (canAccept w req).2 = w := by
  refine ⟨canAccept_true_iff w req, ?_, canAccept_state w req⟩
  unfold isWeb
  cases req.Request <;> simp

/-! ## Launch -/

/-- C2, evaluated on the code: launching the compositing job A on a new manager
succeeds and registers its record under "A", yet the flag `handlingWeb` is
still false afterwards. -/
theorem launchHandler_web_flag_stays_clear :
    isWeb reqA = true ∧
      (launchHandler (World.init "base") demoEnv reqA).1 = none ∧
      (launchHandler (World.init "base") demoEnv reqA).2.s.activeHandlers.lookup "A" = some recA ∧
      (launchHandler (World.init "base") demoEnv reqA).2.s.handlingWeb = false := by
  decide

/-- C3, evaluated on the code: job A (compositing) is accepted on a new manager
and registered, with the flag left clear; job B (other class) submitted while A
is registered passes `canAccept` and is accepted as well. After the cleanup of
A the flag is clear and A is gone, and B is accepted. -/
theorem scenario_other_admitted_beside_compositing :
    (submit (World.init "base") demoEnv reqA).1 = SubmitResult.accepted ∧
      worldA.s.activeHandlers.lookup "A" = some recA ∧
      worldA.s.handlingWeb = false ∧
      (canAccept worldA reqB).1 = true ∧
      (submit worldA demoEnv reqB).1 = SubmitResult.accepted ∧
      (submit worldA demoEnv reqB).2.s.activeHandlers.keys = ["B", "A"] ∧
      ((awaitCleanup worldA recA none).map (fun w => w.s.handlingWeb)) = some false ∧
      ((awaitCleanup worldA recA none).map (fun w => w.s.activeHandlers.keys)) = some [] ∧
      ((awaitCleanup worldA recA none).map (fun w => (submit w demoEnv reqB).1))
        = some SubmitResult.accepted := by
  decide

theorem launchHandler_error_state (w : World) (env : LaunchEnv) (req : StartEgressRequest)
    (err : String) (hfail : (launchHandler w env req).1 = some err) :
    (launchHandler w env req).2.s = w.s ∧
      (launchHandler w env req).2.closedChans = w.closedChans ∧
      (launchHandler w env req).2.nextChan = w.nextChan := by
  unfold launchHandler at hfail ⊢
  simp only at hfail ⊢
  split at hfail
  · simp
  · split at hfail
    · simp
    · split at hfail
      · simp
      · simp at hfail

/-- C4: when `launchHandler` returns an error, the manager (registry, flag,
configuration) is exactly as before, no channel was closed, and `isIdle`
answers as it did before the call. -/
theorem launchHandler_error_unchanged (w : World) (env : LaunchEnv) (req : StartEgressRequest)
    (err : String) (hfail : (launchHandler w env req).1 = some err) :
    (launchHandler w env req).2.s = w.s ∧
      (launchHandler w env req).2.closedChans = w.closedChans ∧
      (isIdle (launchHandler w env req).2).1 = (isIdle w).1 := by
  obtain ⟨hs, hc, _⟩ := launchHandler_error_state w env req err hfail
  exact ⟨hs, hc, by simp [isIdle, hs]⟩

/-- Witness for C4: job B fails to spawn while job A is registered. -/
theorem launchHandler_error_unchanged_witness :
    (launchHandler worldA demoEnvNoSpawn reqB).1 = some "exec: not found" ∧
      ((launchHandler worldA demoEnvNoSpawn reqB).2.s = worldA.s ∧
        (launchHandler worldA demoEnvNoSpawn reqB).2.closedChans = worldA.closedChans ∧
        (isIdle (launchHandler worldA demoEnvNoSpawn reqB).2).1 = (isIdle worldA).1) :=
  ⟨by decide, launchHandler_error_unchanged worldA demoEnvNoSpawn reqB "exec: not found" (by decide)⟩

/-! ## Cleanup -/

theorem awaitCleanup_manager (w : World) (h : process) (exit : Option String) :
    (awaitCleanup w h exit).map (fun w1 => w1.s)
      = if h.closed ∈ w.closedChans then none else some (awaitCleanupLocked w h).s := by
  unfold awaitCleanup awaitCleanupSignal
  by_cases hc : h.closed ∈ w.closedChans
  · simp [hc]
  · simp [hc, awaitCleanupLocked]

/-- C5: the locked section of `awaitCleanup h` removes the entry under
`h.req.EgressId`, leaves the entry under every other identifier as it was, and
sets the flag to false for a compositing-class request and leaves it alone
otherwise; and for either way the worker exited, the manager left by
`awaitCleanup` is the one left by that section (the call panics on an already
closed completion channel). -/
theorem awaitCleanup_registry_update (w : World) (h : process) (exit : Option String) :
    (awaitCleanupLocked w h).s.activeHandlers.lookup h.req.EgressId = none ∧
      (∀ k, k ≠ h.req.EgressId →
        (awaitCleanupLocked w h).s.activeHandlers.lookup k = w.s.activeHandlers.lookup k) ∧
      (awaitCleanupLocked w h).s.handlingWeb = (if isWeb h.req then false else w.s.handlingWeb) ∧
      (awaitCleanup w h exit).map (fun w1 => w1.s)
        = if h.closed ∈ w.closedChans then none else some (awaitCleanupLocked w h).s := by
  refine ⟨?_, ?_, ?_, awaitCleanup_manager w h exit⟩
  · simp [awaitCleanupLocked]
  · intro k hk
    simp [awaitCleanupLocked, AList.lookup_erase_ne hk]
  · simp [awaitCleanupLocked]

/-! ## Shutdown -/

theorem shutdownVisit_frame (signal : Cmd → Option String) (w : World) (h : process) :
    (shutdownVisit signal w h).s = w.s ∧
      (shutdownVisit signal w h).closedChans = w.closedChans ∧
      (shutdownVisit signal w h).nextChan = w.nextChan ∧
      signalsOf (shutdownVisit signal w h).trace
        = signalsOf w.trace ++ (if h.closed ∈ w.closedChans then [] else [h.cmd]) := by
  unfold shutdownVisit
  by_cases hc : h.closed ∈ w.closedChans
  · simp [hc]
  · cases hs : signal h.cmd <;> simp [hc, hs, signalsOf, List.filterMap_append]

theorem shutdown_fold (signal : Cmd → Option String) (l : List (Sigma fun _ : String => process))
    (acc : World) :
    (l.foldl (fun a e => shutdownVisit signal a e.2) acc).s = acc.s ∧
      (l.foldl (fun a e => shutdownVisit signal a e.2) acc).closedChans = acc.closedChans ∧
      (l.foldl (fun a e => shutdownVisit signal a e.2) acc).nextChan = acc.nextChan ∧
      signalsOf (l.foldl (fun a e => shutdownVisit signal a e.2) acc).trace
        = signalsOf acc.trace ++
            (l.filter (fun e => decide (e.2.closed ∉ acc.closedChans))).map (fun e => e.2.cmd) := by
  induction l generalizing acc with
  | nil => simp
  | cons e rest ih =>
    obtain ⟨h1, h2, h3, h4⟩ := shutdownVisit_frame signal acc e.2
    obtain ⟨i1, i2, i3, i4⟩ := ih (shutdownVisit signal acc e.2)
    simp only [List.foldl_cons]
    refine ⟨i1.trans h1, i2.trans h2, i3.trans h3, ?_⟩
    rw [i4, h4, h2]
    by_cases hc : e.2.closed ∈ acc.closedChans
    · simp [hc]
    · simp [hc]

theorem shutdown_manager (w : World) (signal : Cmd → Option String) :
    (shutdown w signal).s = w.s :=
  (shutdown_fold signal w.s.activeHandlers.entries w).1

/-- C9: whatever the outcome of each signal delivery, `shutdown` signals, once
each and in visiting order, exactly the registered records whose completion
channel is not closed, and leaves the manager (registry and flag) and the
channels as they were. -/
theorem shutdown_signals_open_records (w : World) (signal : Cmd → Option String) :
    (shutdown w signal).s = w.s ∧
      (shutdown w signal).closedChans = w.closedChans ∧
      signalsOf (shutdown w signal).trace
        = signalsOf w.trace ++
            (w.s.activeHandlers.entries.filter
              (fun e => decide (e.2.closed ∉ w.closedChans))).map (fun e => e.2.cmd) := by
  obtain ⟨h1, h2, _, h4⟩ := shutdown_fold signal w.s.activeHandlers.entries w
  exact ⟨h1, h2, h4⟩


/-! ## Status -/

theorem status_fold_lookup (l : List (Sigma fun _ : String => process)) (hnd : l.NodupKeys)
    (hk : ∀ e ∈ l, e.2.req.EgressId = e.1) (info : StatusMap) (k : String) :
    (l.foldl (fun info e => info.insert e.2.req.EgressId (StatusValue.request e.2.req.Request))
        info).lookup k
      = match l.dlookup k with
        | some h => some (StatusValue.request h.req.Request)
        | none => info.lookup k := by
  induction l generalizing info with
  | nil => simp
  | cons e rest ih =>
    obtain ⟨ek, eh⟩ := e
    have hek : eh.req.EgressId = ek := hk ⟨ek, eh⟩ (by simp)
    have hrest : ∀ e ∈ rest, e.2.req.EgressId = e.1 := fun e he => hk e (by simp [he])
    rw [List.nodupKeys_cons] at hnd
    simp only [List.foldl_cons]
    rw [ih hnd.2 hrest]
    by_cases hkk : k = ek
    · subst hkk
      have : rest.dlookup k = none := by
        rw [List.dlookup_eq_none]; exact hnd.1
      simp [this, hek]
    · have h1 : (List.dlookup k (⟨ek, eh⟩ :: rest)) = List.dlookup k rest :=
        List.dlookup_cons_ne _ _ (by simpa using hkk)
      rw [h1, hek, AList.lookup_insert_ne hkk]

theorem status_lookup (w : World) (hk : w.Keyed) (x : CPULoad) (k : String) :
    (status w x).1.lookup k
      = match w.s.activeHandlers.lookup k with
        | some h => some (StatusValue.request h.req.Request)
        | none => if k = "CpuLoad" then some (StatusValue.load x) else none := by
  unfold status
  simp only
  rw [status_fold_lookup _ w.s.activeHandlers.nodupKeys hk]
  have : (AList.singleton "CpuLoad" (StatusValue.load x) : StatusMap).lookup k
      = if k = "CpuLoad" then some (StatusValue.load x) else none := by
    by_cases h : k = "CpuLoad"
    · subst h; simp [AList.singleton, AList.lookup]
    · simp [AList.singleton, AList.lookup, h, List.dlookup_cons_ne]
  rw [this]
  rfl

/-- C8, amended: in a state where every record is stored under its own job
identifier, the mapping returned by `status` has exactly the keys "CpuLoad" and
the registered job identifiers, maps every registered job identifier to the
request payload of its record, and maps "CpuLoad" to the load gauge provided no
record is registered under "CpuLoad"; `status` leaves the state as it was. -/
theorem status_keyed (w : World) (hk : w.Keyed) (x : CPULoad) :
    (∀ k h, w.s.activeHandlers.lookup k = some h →
        (status w x).1.lookup k = some (StatusValue.request h.req.Request)) ∧
      (w.s.activeHandlers.lookup "CpuLoad" = none →
        (status w x).1.lookup "CpuLoad" = some (StatusValue.load x)) ∧
      (∀ k, k ∈ (status w x).1 ↔ k = "CpuLoad" ∨ k ∈ w.s.activeHandlers) ∧
      (status w x).2 = w := by
  refine ⟨?_, ?_, ?_, rfl⟩
  · intro k h hl
    rw [status_lookup w hk, hl]
  · intro hl
    rw [status_lookup w hk, hl]; simp
  · intro k
    rw [← AList.lookup_isSome, ← AList.lookup_isSome, status_lookup w hk]
    cases hl : w.s.activeHandlers.lookup k with
    | some h => simp
    | none =>
      by_cases h : k = "CpuLoad" <;> simp [h]

/-- Witness for C8: the state in which job A is registered. -/
theorem status_keyed_witness :
    worldA.Keyed ∧
      ((∀ k h, worldA.s.activeHandlers.lookup k = some h →
        (status worldA 42).1.lookup k = some (StatusValue.request h.req.Request)) ∧
      (worldA.s.activeHandlers.lookup "CpuLoad" = none →
        (status worldA 42).1.lookup "CpuLoad" = some (StatusValue.load 42)) ∧
      (∀ k, k ∈ (status worldA 42).1 ↔ k = "CpuLoad" ∨ k ∈ worldA.s.activeHandlers) ∧
      (status worldA 42).2 = worldA) :=
  ⟨by decide, status_keyed worldA (by decide) 42⟩

/-- C8 as stated fails: with job C registered under "CpuLoad", the mapping
returned by `status` has the single key "CpuLoad" bound to the request payload
of C, so it does not hold the load gauge. -/
theorem status_cpuload_key_collision :
    worldC.Keyed ∧
      worldC.s.activeHandlers.keys = ["CpuLoad"] ∧
      (status worldC 42).1.entries = [⟨"CpuLoad", StatusValue.request (EgressRequest.Track "c")⟩] ∧
      ¬ ((status worldC 42).1.lookup "CpuLoad" = some (StatusValue.load 42) ∧
          (∀ e ∈ worldC.s.activeHandlers.entries,
            (status worldC 42).1.lookup e.2.req.EgressId
              = some (StatusValue.request e.2.req.Request)) ∧
          ∀ k ∈ (status worldC 42).1.keys, k = "CpuLoad" ∨ k ∈ worldC.s.activeHandlers.keys) := by
  decide


/-! ## Launch under a registered job identifier -/

/-- Shape of the state after a successful launch. -/
theorem launchHandler_ok (w : World) (env : LaunchEnv) (req : StartEgressRequest)
    (hok : (launchHandler w env req).1 = none) :
    ∃ c r pid,
      env.yamlMarshal (pipelineConfig w env) = Except.ok c ∧
      env.protojsonMarshal req = Except.ok r ∧
      env.start (handlerArgs c r) = Except.ok pid ∧
      (launchHandler w env req).2.s.activeHandlers =
        w.s.activeHandlers.insert req.EgressId
          (process.mk env.newGuid req (Cmd.mk (handlerArgs c r) pid) w.nextChan) ∧
      (launchHandler w env req).2.s.handlingWeb = w.s.handlingWeb ∧
      (launchHandler w env req).2.s.conf = w.s.conf ∧
      (launchHandler w env req).2.closedChans = w.closedChans ∧
      (launchHandler w env req).2.nextChan = w.nextChan + 1 ∧
      (launchHandler w env req).2.trace = w.trace ++ [Event.EgressStarted req] := by
  unfold launchHandler at hok ⊢
  simp only at hok ⊢
  split at hok
  · simp at hok
  · rename_i c hc
    split at hok
    · simp at hok
    · rename_i r hr
      split at hok
      · simp at hok
      · rename_i pid hp
        exact ⟨c, r, pid, hc, hr, hp, by simp [hc, hr, hp]⟩

theorem launchedRecord_ok (w : World) (env : LaunchEnv) (req : StartEgressRequest)
    (hok : (launchHandler w env req).1 = none) :
    ∃ h, launchedRecord w env req = some h ∧ h.req = req ∧ h.closed = w.nextChan ∧
      h.handlerID = env.newGuid ∧
      (launchHandler w env req).2.s.activeHandlers = w.s.activeHandlers.insert req.EgressId h ∧
      (launchHandler w env req).2.s.handlingWeb = w.s.handlingWeb ∧
      (launchHandler w env req).2.closedChans = w.closedChans ∧
      (launchHandler w env req).2.nextChan = w.nextChan + 1 ∧
      (launchHandler w env req).2.trace = w.trace ++ [Event.EgressStarted req] := by
  obtain ⟨c, r, pid, _, _, _, hm, hf, _, hc, hn, ht⟩ := launchHandler_ok w env req hok
  refine ⟨process.mk env.newGuid req (Cmd.mk (handlerArgs c r) pid) w.nextChan, ?_⟩
  unfold launchedRecord
  rw [hok, hm]
  simp [hf, hc, hn, ht]

theorem length_insert_of_mem (m : Handlers) (k : String) (h : process) (hk : k ∈ m) :
    (m.insert k h).entries.length = m.entries.length := by
  rw [AList.insert_entries]
  obtain ⟨b, hb⟩ : ∃ b, (⟨k, b⟩ : Sigma fun _ : String => process) ∈ m.entries := by
    rw [AList.mem_keys] at hk; exact List.mem_keys.mp hk
  have hpos : 0 < m.entries.length := List.length_pos_of_mem hb
  have : (List.kerase k m.entries).length = m.entries.length - 1 := by
    unfold List.kerase
    exact List.length_eraseP_of_mem hb (by simp)
  simp [this]; omega

theorem length_erase_of_mem (m : Handlers) (k : String) (hk : k ∈ m) :
    (m.erase k).entries.length + 1 = m.entries.length := by
  obtain ⟨b, hb⟩ : ∃ b, (⟨k, b⟩ : Sigma fun _ : String => process) ∈ m.entries := by
    rw [AList.mem_keys] at hk; exact List.mem_keys.mp hk
  have hpos : 0 < m.entries.length := List.length_pos_of_mem hb
  have : (List.kerase k m.entries).length = m.entries.length - 1 := by
    unfold List.kerase
    exact List.length_eraseP_of_mem hb (by simp)
  show (List.kerase k m.entries).length + 1 = _
  omega

/-- C10: `launchHandler` does not look at the registry before storing. When a
record `h1` is registered under the job identifier of the request, a successful
launch puts the new record `h2` in its place without growing the registry; the
cleanup of `h1` then removes the entry under that identifier, which is `h2`,
although the completion channel of `h2` is not closed; and `isIdle` is true
afterwards exactly when `h1` was the only record. -/
theorem launchHandler_same_id_replaces (w : World) (env : LaunchEnv) (req : StartEgressRequest)
    (h1 : process) (exit : Option String)
    (hfresh : w.Fresh)
    (hreg : w.s.activeHandlers.lookup h1.req.EgressId = some h1)
    (hopen : h1.closed ∉ w.closedChans)
    (hid : req.EgressId = h1.req.EgressId)
    (hok : (launchHandler w env req).1 = none) :
    ∃ h2 w2,
      launchedRecord w env req = some h2 ∧ h2.req = req ∧ h2 ≠ h1 ∧
      (launchHandler w env req).2.s.activeHandlers.lookup req.EgressId = some h2 ∧
      (launchHandler w env req).2.s.activeHandlers.entries.length
        = w.s.activeHandlers.entries.length ∧
      awaitCleanup (launchHandler w env req).2 h1 exit = some w2 ∧
      w2.s.activeHandlers.lookup req.EgressId = none ∧
      h2.closed ∉ w2.closedChans ∧
      ((isIdle w2).1 = true ↔ w.s.activeHandlers.entries.length = 1) := by
  obtain ⟨h2, hrec, hreq, hcl, _, hm, _, hc, _, _⟩ := launchedRecord_ok w env req hok
  have hmem1 : (⟨h1.req.EgressId, h1⟩ : Sigma fun _ : String => process) ∈ w.s.activeHandlers.entries :=
    AList.mem_lookup_iff.mp hreg
  have hlt : h1.closed < w.nextChan := hfresh.2 _ hmem1
  have hne : h2 ≠ h1 := by
    intro h; rw [h] at hcl; omega
  have hkey : req.EgressId ∈ w.s.activeHandlers := by
    rw [← AList.lookup_isSome, hid, hreg]; rfl
  have hlen : (launchHandler w env req).2.s.activeHandlers.entries.length
      = w.s.activeHandlers.entries.length := by
    rw [hm]; exact length_insert_of_mem _ _ _ hkey
  have hopen1 : h1.closed ∉ (launchHandler w env req).2.closedChans := by rw [hc]; exact hopen
  have hsig : ∃ w1, awaitCleanupSignal (launchHandler w env req).2 h1 exit = some w1 ∧
      w1.s = (launchHandler w env req).2.s ∧ w1.closedChans = h1.closed :: w.closedChans := by
    simp only [awaitCleanupSignal, hopen1, ↓reduceIte]
    exact ⟨_, rfl, rfl, by simp [hc]⟩
  obtain ⟨w1, hw1, hs1, hc1⟩ := hsig
  refine ⟨h2, awaitCleanupLocked w1 h1, hrec, hreq, hne, ?_, hlen, ?_, ?_, ?_, ?_⟩
  · rw [hm]; exact AList.lookup_insert _
  · simp [awaitCleanup, hw1]
  · rw [hid]; exact AList.lookup_erase _ _
  · simp only [awaitCleanupLocked, hc1, List.mem_cons, not_or]
    refine ⟨?_, ?_⟩
    · rw [hcl]; omega
    · intro hin
      have := hfresh.1 _ hin
      omega
  · have hkey1 : h1.req.EgressId ∈ w1.s.activeHandlers := by
      rw [hs1, hm, ← hid]; simp
    have := length_erase_of_mem w1.s.activeHandlers h1.req.EgressId hkey1
    rw [hs1, hlen] at this
    have h3 : (awaitCleanupLocked w1 h1).s.activeHandlers.entries.length + 1
        = w.s.activeHandlers.entries.length := by
      simpa [awaitCleanupLocked, hs1] using this
    simp only [isIdle, beq_iff_eq]
    omega

/-- Witness for C10: job A is registered and its identifier is submitted again. -/
theorem launchHandler_same_id_replaces_witness :
    worldA.Fresh ∧ worldA.s.activeHandlers.lookup recA.req.EgressId = some recA ∧
      recA.closed ∉ worldA.closedChans ∧ reqA2.EgressId = recA.req.EgressId ∧
      (launchHandler worldA demoEnv reqA2).1 = none ∧
      ∃ h2 w2,
        launchedRecord worldA demoEnv reqA2 = some h2 ∧ h2.req = reqA2 ∧ h2 ≠ recA ∧
        (launchHandler worldA demoEnv reqA2).2.s.activeHandlers.lookup reqA2.EgressId = some h2 ∧
        (launchHandler worldA demoEnv reqA2).2.s.activeHandlers.entries.length
          = worldA.s.activeHandlers.entries.length ∧
        awaitCleanup (launchHandler worldA demoEnv reqA2).2 recA none = some w2 ∧
        w2.s.activeHandlers.lookup reqA2.EgressId = none ∧
        h2.closed ∉ w2.closedChans ∧
        ((isIdle w2).1 = true ↔ worldA.s.activeHandlers.entries.length = 1) :=
  ⟨by decide, by decide, by decide, by decide, by decide,
    launchHandler_same_id_replaces worldA demoEnv reqA2 recA none
      (by decide) (by decide) (by decide) (by decide) (by decide)⟩


/-! ## Exclusivity -/

theorem webCount_erase_le (w : World) (k : String) :
    ((w.s.activeHandlers.erase k).entries.filter (fun e => isWeb e.2.req)).length ≤ webCount w := by
  unfold webCount
  exact ((List.kerase_sublist k w.s.activeHandlers.entries).filter _).length_le

theorem webCount_awaitCleanup (w w2 : World) (h : process) (exit : Option String)
    (hc : awaitCleanup w h exit = some w2) : webCount w2 ≤ webCount w := by
  have h1 := awaitCleanup_manager w h exit
  rw [hc] at h1
  by_cases hcl : h.closed ∈ w.closedChans
  · simp [hcl] at h1
  · simp only [hcl, if_false, Option.map_some'] at h1
    have h2 : w2.s = (awaitCleanupLocked w h).s := Option.some.inj h1
    have := webCount_erase_le w h.req.EgressId
    unfold webCount at this ⊢
    rw [h2]
    simpa [awaitCleanupLocked] using this

theorem webCount_submit (w : World) (env : LaunchEnv) (req : StartEgressRequest)
    (hw : webCount w ≤ 1) : webCount (submit w env req).2 ≤ 1 := by
  have hiff := canAccept_true_iff w req
  have hframe := canAccept_state w req
  unfold submit
  cases hacc : canAccept w req with
  | mk b w1 =>
    have hb : (canAccept w req).1 = b := by rw [hacc]
    have hw1 : w1 = w := by rw [← hframe, hacc]
    subst hw1
    cases b with
    | false => simpa using hw
    | true =>
      simp only
      cases hl : launchHandler w1 env req with
      | mk res w2 =>
        have hres : (launchHandler w1 env req).1 = res := by rw [hl]
        have hw2 : (launchHandler w1 env req).2 = w2 := by rw [hl]
        cases res with
        | some err =>
          simp only
          have := (launchHandler_error_state w1 env req err hres).1
          rw [hw2] at this
          unfold webCount at hw ⊢
          rw [this]; exact hw
        | none =>
          simp only
          obtain ⟨h2, _, hreq, _, _, hm, _⟩ := launchedRecord_ok w1 env req hres
          rw [hw2] at hm
          unfold webCount at hw ⊢
          rw [hm, AList.insert_entries]
          rcases (hiff.mp hb).2 with hnw | hemp
          · rw [List.filter_cons_of_neg (by simp [hreq, hnw])]
            exact le_trans
              ((List.kerase_sublist req.EgressId w1.s.activeHandlers.entries).filter _).length_le hw
          · rw [hemp]
            simp only [AList.empty_entries, List.kerase_nil]
            exact le_trans (List.length_filter_le _ _) (by simp)

theorem webCount_step (w w2 : World) (a : Action) (hw : webCount w ≤ 1)
    (hs : step w a = some w2) : webCount w2 ≤ 1 := by
  cases a with
  | submit env req =>
    simp only [step] at hs
    split at hs
    · simp at hs
    · rw [← Option.some.inj hs]; exact webCount_submit w env req hw
  | cleanup h exit =>
    simp only [step] at hs
    split at hs
    · exact le_trans (webCount_awaitCleanup w w2 h exit hs) hw
    · simp at hs

theorem webCount_run (acts : List Action) (w w2 : World) (hw : webCount w ≤ 1)
    (hr : run w acts = some w2) : webCount w2 ≤ 1 := by
  induction acts generalizing w with
  | nil =>
    simp only [run] at hr
    rw [← Option.some.inj hr]; exact hw
  | cons a rest ih =>
    simp only [run] at hr
    cases hs : step w a with
    | none => simp [hs] at hr
    | some w1 =>
      rw [hs] at hr
      exact ih w1 (webCount_step w w1 a hw hs) hr

/-- C6: start from a new manager and take any sequence of steps, each a
submission under a job identifier that is not registered (admission check, then
launch only if accepted) or the cleanup of a registered record. After every
step, that is after every prefix `acts.take n` of the sequence, the registry
holds at most one compositing-class record. -/
theorem exclusivity (conf : String) (acts : List Action) (n : Nat) (w : World)
    (hrun : run (World.init conf) (acts.take n) = some w) : webCount w ≤ 1 :=
  webCount_run (acts.take n) (World.init conf) w
    (by simp [webCount, World.init, NewProcessManager]) hrun

/-- Witness for C6: after A and B have been submitted both are registered. -/
theorem exclusivity_witness :
    run (World.init "base") (demoActs.take 2) = some worldAB ∧ webCount worldAB ≤ 1 :=
  ⟨rfl, exclusivity "base" demoActs 2 worldAB rfl⟩


/-! ## Drain -/

theorem mem_set_of_ne {α : Type} (l : List α) (i : Nat) (x t : α) (ht : t ∈ l)
    (hne : l[i]? ≠ some t) : t ∈ l.set i x := by
  obtain ⟨j, hj⟩ := List.mem_iff_getElem?.mp ht
  have hji : i ≠ j := by
    intro h; subst h; exact hne hj
  have : (l.set i x)[j]? = some t := by
    rw [List.getElem?_set_ne hji]; exact hj
  exact List.mem_iff_getElem?.mpr ⟨j, this⟩

theorem mem_set_self_of_lt {α : Type} (l : List α) (i : Nat) (x y : α) (h : l[i]? = some y) :
    x ∈ l.set i x := by
  have hi : i < l.length := by
    by_contra hc
    rw [List.getElem?_eq_none (by omega)] at h
    simp at h
  exact List.mem_iff_getElem?.mpr ⟨i, by simp [List.getElem?_set_self, hi]⟩

theorem supervised_of_registry_eq (sys sys2 : Sys) (hinv : sys.Supervised)
    (hreg : sys2.w.s.activeHandlers = sys.w.s.activeHandlers) (ht : sys2.tasks = sys.tasks) :
    sys2.Supervised := by
  intro e he
  rw [hreg] at he
  rw [ht]
  exact hinv e he

theorem supervised_launch (sys sys2 : Sys) (env : LaunchEnv) (req : StartEgressRequest)
    (hinv : sys.Supervised) (hs : sysStep sys (SysAction.launch env req) = some sys2) :
    sys2.Supervised := by
  simp only [sysStep] at hs
  cases hres : (launchHandler sys.w env req).1 with
  | some err =>
    have hrec : launchedRecord sys.w env req = none := by simp [launchedRecord, hres]
    rw [hrec] at hs
    have h2 := Option.some.inj hs
    have hsame := (launchHandler_error_state sys.w env req err hres).1
    apply supervised_of_registry_eq sys sys2 hinv
    · rw [← h2]; simp [hsame]
    · rw [← h2]
  | none =>
    obtain ⟨h, hrec, hreq, _, _, hm, _⟩ := launchedRecord_ok sys.w env req hres
    rw [hrec] at hs
    have h2 := Option.some.inj hs
    intro e he
    rw [← h2] at he ⊢
    simp only at he ⊢
    rw [hm, AList.insert_entries, List.mem_cons] at he
    rcases he with he | he
    · subst he
      exact ⟨by simp [hreq], (h, Pc.waiting), by simp, rfl, by simp⟩
    · have hold := hinv e ((List.kerase_sublist _ _).subset he)
      obtain ⟨hk, t, ht, ht1, ht2⟩ := hold
      exact ⟨hk, t, by simp [ht], ht1, ht2⟩

theorem supervised_supSignal (sys sys2 : Sys) (i : Nat) (exit : Option String)
    (hinv : sys.Supervised) (hs : sysStep sys (SysAction.supSignal i exit) = some sys2) :
    sys2.Supervised := by
  simp only [sysStep] at hs
  split at hs
  · rename_i h hi
    cases hsig : awaitCleanupSignal sys.w h exit with
    | none => simp [hsig] at hs
    | some w1 =>
      rw [hsig] at hs
      have h2 := Option.some.inj hs
      have hw1 : w1.s = sys.w.s := by
        unfold awaitCleanupSignal at hsig
        simp only at hsig
        split at hsig
        · simp at hsig
        · rw [← Option.some.inj hsig]
      intro e he
      rw [← h2] at he ⊢
      simp only [Option.map_some'] at he ⊢
      rw [hw1] at he
      obtain ⟨hk, t, ht, ht1, ht2⟩ := hinv e he
      refine ⟨hk, ?_⟩
      by_cases hti : sys.tasks[i]? = some t
      · rw [hi] at hti
        have hte : t = (h, Pc.waiting) := (Option.some.inj hti).symm
        refine ⟨(h, Pc.signalled), mem_set_self_of_lt _ _ _ _ hi, ?_, by simp⟩
        rw [← ht1, hte]
      · exact ⟨t, mem_set_of_ne _ _ _ _ ht hti, ht1, ht2⟩
  · simp at hs

theorem supervised_supRemove (sys sys2 : Sys) (i : Nat)
    (hinv : sys.Supervised) (hs : sysStep sys (SysAction.supRemove i) = some sys2) :
    sys2.Supervised := by
  simp only [sysStep] at hs
  split at hs
  · rename_i h hi
    have h2 := Option.some.inj hs
    intro e he
    rw [← h2] at he ⊢
    simp only [awaitCleanupLocked] at he ⊢
    have hnk : e.1 ≠ h.req.EgressId := by
      intro heq
      have hmem : e.1 ∈ (List.kerase h.req.EgressId sys.w.s.activeHandlers.entries).keys :=
        List.mem_keys_of_mem he
      rw [heq] at hmem
      exact List.not_mem_keys_kerase _ sys.w.s.activeHandlers.nodupKeys hmem
    obtain ⟨hk, t, ht, ht1, ht2⟩ := hinv e ((List.kerase_sublist _ _).subset he)
    refine ⟨hk, t, mem_set_of_ne _ _ _ _ ht ?_, ht1, ht2⟩
    intro hti
    rw [hi] at hti
    have hte : t = (h, Pc.signalled) := (Option.some.inj hti).symm
    rw [hte] at ht1
    simp only at ht1
    rw [ht1, hk] at hnk
    exact hnk rfl
  · simp at hs

theorem supervised_shutdown (sys sys2 : Sys) (signal : Cmd → Option String)
    (hinv : sys.Supervised) (hs : sysStep sys (SysAction.shutdown signal) = some sys2) :
    sys2.Supervised := by
  simp only [sysStep] at hs
  have h2 := Option.some.inj hs
  apply supervised_of_registry_eq sys sys2 hinv
  · rw [← h2]; simp [shutdown_manager sys.w signal]
  · rw [← h2]

theorem supervised_step (sys sys2 : Sys) (a : SysAction) (hinv : sys.Supervised)
    (hs : sysStep sys a = some sys2) : sys2.Supervised := by
  cases a with
  | launch env req => exact supervised_launch sys sys2 env req hinv hs
  | supSignal i exit => exact supervised_supSignal sys sys2 i exit hinv hs
  | supRemove i => exact supervised_supRemove sys sys2 i hinv hs
  | shutdown signal => exact supervised_shutdown sys sys2 signal hinv hs

theorem supervised_run (acts : List SysAction) (sys sys2 : Sys) (hinv : sys.Supervised)
    (hr : sysRun sys acts = some sys2) : sys2.Supervised := by
  induction acts generalizing sys with
  | nil =>
    simp only [sysRun] at hr
    rw [← Option.some.inj hr]; exact hinv
  | cons a rest ih =>
    simp only [sysRun] at hr
    cases hs : sysStep sys a with
    | none => simp [hs] at hr
    | some s1 =>
      rw [hs] at hr
      exact ih s1 (supervised_step sys s1 a hinv hs) hr


theorem registry_shrinks_step (sys sys2 : Sys) (a : SysAction) (ha : a.isSupervisor = true)
    (hs : sysStep sys a = some sys2) :
    ∀ e ∈ sys2.w.s.activeHandlers.entries, e ∈ sys.w.s.activeHandlers.entries := by
  cases a with
  | launch env req => simp [SysAction.isSupervisor] at ha
  | shutdown signal => simp [SysAction.isSupervisor] at ha
  | supSignal i exit =>
    simp only [sysStep] at hs
    split at hs
    · rename_i h hi
      cases hsig : awaitCleanupSignal sys.w h exit with
      | none => simp [hsig] at hs
      | some w1 =>
        rw [hsig] at hs
        have h2 := Option.some.inj hs
        have hw1 : w1.s = sys.w.s := by
          unfold awaitCleanupSignal at hsig
          simp only at hsig
          split at hsig
          · simp at hsig
          · rw [← Option.some.inj hsig]
        intro e he
        rw [← h2] at he
        simp only [Option.map_some'] at he
        rw [hw1] at he
        exact he
    · simp at hs
  | supRemove i =>
    simp only [sysStep] at hs
    split at hs
    · have h2 := Option.some.inj hs
      intro e he
      rw [← h2] at he
      simp only [awaitCleanupLocked] at he
      exact (List.kerase_sublist _ _).subset he
    · simp at hs

theorem registry_shrinks_run (acts : List SysAction) (sys sys2 : Sys)
    (ha : ∀ a ∈ acts, a.isSupervisor = true) (hr : sysRun sys acts = some sys2) :
    ∀ e ∈ sys2.w.s.activeHandlers.entries, e ∈ sys.w.s.activeHandlers.entries := by
  induction acts generalizing sys with
  | nil =>
    simp only [sysRun] at hr
    rw [← Option.some.inj hr]; exact fun e he => he
  | cons a rest ih =>
    simp only [sysRun] at hr
    cases hs : sysStep sys a with
    | none => simp [hs] at hr
    | some s1 =>
      rw [hs] at hr
      intro e he
      exact registry_shrinks_step sys s1 a (ha a (by simp)) hs e
        (ih s1 (fun b hb => ha b (by simp [hb])) hr e he)

theorem supervised_init (conf : String) : (Sys.init conf).Supervised := by
  intro e he
  simp [Sys.init, World.init, NewProcessManager] at he

/-- C7, amended: run the concurrent model from a new manager to the state `mid`,
call `shutdown` there, and let only supervisor steps follow (no launch). Every
state `fin` reached in which the supervisor of every record registered at
shutdown time has returned, that is has removed its record, has `isIdle` true. -/
theorem drain_converges (conf : String) (pre post : List SysAction)
    (signal : Cmd → Option String) (mid fin : Sys)
    (hpre : sysRun (Sys.init conf) pre = some mid)
    (hpost : sysRun mid (SysAction.shutdown signal :: post) = some fin)
    (honly : ∀ a ∈ post, a.isSupervisor = true)
    (hdone : allSupervisorsDone mid fin) :
    (isIdle fin.w).1 = true := by
  have hmid : mid.Supervised := supervised_run pre _ mid (supervised_init conf) hpre
  have hfin : fin.Supervised := supervised_run _ mid fin hmid hpost
  simp only [sysRun, sysStep, Option.some_bind] at hpost
  have hsub := registry_shrinks_run post _ fin honly hpost
  simp only [shutdown_manager mid.w signal] at hsub
  cases hent : fin.w.s.activeHandlers.entries with
  | nil => simp [isIdle, hent]
  | cons e rest =>
    exfalso
    have he : e ∈ fin.w.s.activeHandlers.entries := by rw [hent]; simp
    obtain ⟨hk, t, ht, ht1, ht2⟩ := hfin e he
    have hmem : e ∈ mid.w.s.activeHandlers.entries := hsub e he
    have hlook : mid.w.s.activeHandlers.lookup t.1.req.EgressId = some t.1 := by
      rw [ht1, hk]
      exact AList.mem_lookup_iff.mpr hmem
    exact ht2 (hdone t ht hlook)

/-- Witness for C7: job A is launched, then shutdown, then its supervisor runs to its end. -/
theorem drain_converges_witness :
    sysRun (Sys.init "base") [SysAction.launch demoEnv reqA] = some sysA ∧
      sysRun sysA (SysAction.shutdown (fun _ => none) ::
        [SysAction.supSignal 0 none, SysAction.supRemove 0]) = some sysADone ∧
      (∀ a ∈ [SysAction.supSignal 0 none, SysAction.supRemove 0], a.isSupervisor = true) ∧
      allSupervisorsDone sysA sysADone ∧
      (isIdle sysADone.w).1 = true :=
  ⟨rfl, rfl, by decide, by decide,
    drain_converges "base" [SysAction.launch demoEnv reqA]
      [SysAction.supSignal 0 none, SysAction.supRemove 0] (fun _ => none) sysA sysADone
      rfl rfl (by decide) (by decide)⟩

/-- C7 as stated fails: job A is launched, `shutdown` is called, and the
supervisor of A closes the completion channel. In that state the completion
channel of every record registered at shutdown time is closed, and A is still
registered, so `isIdle` is false. -/
theorem drain_signals_closed_not_idle :
    sysRun (Sys.init "base") [SysAction.launch demoEnv reqA] = some sysA ∧
      sysRun sysA [SysAction.shutdown (fun _ => none), SysAction.supSignal 0 none]
        = some sysASignalled ∧
      sysA.w.s.activeHandlers.keys = ["A"] ∧
      allSignalsClosed sysA sysASignalled ∧
      (isIdle sysASignalled.w).1 = false := by
  refine ⟨rfl, rfl, ?_, ?_, ?_⟩ <;> decide


/-! ## Invariants of the reachable states -/

theorem keyed_launchHandler (w : World) (env : LaunchEnv) (req : StartEgressRequest)
    (hk : w.Keyed) : (launchHandler w env req).2.Keyed := by
  cases hres : (launchHandler w env req).1 with
  | some err =>
    unfold World.Keyed
    rw [(launchHandler_error_state w env req err hres).1]
    exact hk
  | none =>
    obtain ⟨h, _, hreq, _, _, hm, _⟩ := launchedRecord_ok w env req hres
    intro e he
    rw [hm, AList.insert_entries, List.mem_cons] at he
    rcases he with he | he
    · subst he; simp [hreq]
    · exact hk e ((List.kerase_sublist _ _).subset he)

theorem fresh_launchHandler (w : World) (env : LaunchEnv) (req : StartEgressRequest)
    (hf : w.Fresh) : (launchHandler w env req).2.Fresh := by
  cases hres : (launchHandler w env req).1 with
  | some err =>
    obtain ⟨hs, hc, hn⟩ := launchHandler_error_state w env req err hres
    unfold World.Fresh
    rw [hs, hc, hn]
    exact hf
  | none =>
    obtain ⟨h, _, _, hcl, _, hm, _, hc, hn, _⟩ := launchedRecord_ok w env req hres
    refine ⟨?_, ?_⟩
    · intro c hcm
      rw [hc] at hcm
      rw [hn]
      exact Nat.lt_succ_of_lt (hf.1 c hcm)
    · intro e he
      rw [hn]
      rw [hm, AList.insert_entries, List.mem_cons] at he
      rcases he with he | he
      · subst he; simp [hcl]
      · exact Nat.lt_succ_of_lt (hf.2 e ((List.kerase_sublist _ _).subset he))

theorem awaitCleanup_some (w w2 : World) (h : process) (exit : Option String)
    (hc : awaitCleanup w h exit = some w2) :
    w2.s = (awaitCleanupLocked w h).s ∧ w2.closedChans = h.closed :: w.closedChans ∧
      w2.nextChan = w.nextChan := by
  unfold awaitCleanup awaitCleanupSignal at hc
  simp only at hc
  split at hc
  · simp at hc
  · simp only [Option.map_some'] at hc
    rw [← Option.some.inj hc]
    simp [awaitCleanupLocked]

theorem keyed_awaitCleanup (w w2 : World) (h : process) (exit : Option String)
    (hk : w.Keyed) (hc : awaitCleanup w h exit = some w2) : w2.Keyed := by
  obtain ⟨hs, _, _⟩ := awaitCleanup_some w w2 h exit hc
  intro e he
  rw [hs] at he
  simp only [awaitCleanupLocked] at he
  exact hk e ((List.kerase_sublist _ _).subset he)

theorem fresh_awaitCleanup (w w2 : World) (h : process) (exit : Option String)
    (hf : w.Fresh) (hlt : h.closed < w.nextChan) (hc : awaitCleanup w h exit = some w2) :
    w2.Fresh := by
  obtain ⟨hs, hcl, hn⟩ := awaitCleanup_some w w2 h exit hc
  refine ⟨?_, ?_⟩
  · intro c hcm
    rw [hcl, List.mem_cons] at hcm
    rw [hn]
    rcases hcm with hcm | hcm
    · rw [hcm]; exact hlt
    · exact hf.1 c hcm
  · intro e he
    rw [hs] at he
    simp only [awaitCleanupLocked] at he
    rw [hn]
    exact hf.2 e ((List.kerase_sublist _ _).subset he)

theorem keyed_fresh_step (w w2 : World) (a : Action) (hk : w.Keyed) (hf : w.Fresh)
    (hs : step w a = some w2) : w2.Keyed ∧ w2.Fresh := by
  cases a with
  | submit env req =>
    simp only [step] at hs
    split at hs
    · simp at hs
    · rw [← Option.some.inj hs]
      unfold submit
      have hframe := canAccept_state w req
      cases hacc : canAccept w req with
      | mk b w1 =>
        have hw1 : w1 = w := by rw [← hframe, hacc]
        subst hw1
        cases b with
        | false => exact ⟨hk, hf⟩
        | true =>
          simp only
          have h1 := keyed_launchHandler w1 env req hk
          have h2 := fresh_launchHandler w1 env req hf
          cases hl : launchHandler w1 env req with
          | mk res w3 =>
            rw [hl] at h1 h2
            cases res <;> exact ⟨h1, h2⟩
  | cleanup h exit =>
    simp only [step] at hs
    split at hs
    · rename_i hreg
      have hmem := AList.mem_lookup_iff.mp hreg
      exact ⟨keyed_awaitCleanup w w2 h exit hk hs,
        fresh_awaitCleanup w w2 h exit hf (hf.2 _ hmem) hs⟩
    · simp at hs

/-- Every state reached from a new manager stores each record under its own
job identifier and uses only allocated channel references. -/
theorem keyed_fresh_run (conf : String) (acts : List Action) (w : World)
    (hr : run (World.init conf) acts = some w) : w.Keyed ∧ w.Fresh := by
  have key : ∀ (l : List Action) (w0 w1 : World), w0.Keyed → w0.Fresh →
      run w0 l = some w1 → w1.Keyed ∧ w1.Fresh := by
    intro l
    induction l with
    | nil =>
      intro w0 w1 hk hf hr
      simp only [run] at hr
      rw [← Option.some.inj hr]; exact ⟨hk, hf⟩
    | cons a rest ih =>
      intro w0 w1 hk hf hr
      simp only [run] at hr
      cases hs : step w0 a with
      | none => simp [hs] at hr
      | some w2 =>
        rw [hs] at hr
        obtain ⟨hk2, hf2⟩ := keyed_fresh_step w0 w2 a hk hf hs
        exact ih w2 w1 hk2 hf2 hr
  refine key acts (World.init conf) w ?_ ?_ hr
  · intro e he
    simp [World.init, NewProcessManager] at he
  · refine ⟨?_, ?_⟩
    · intro c hc
      simp [World.init] at hc
    · intro e he
      simp [World.init, NewProcessManager] at he

end Egress
